import Mathlib

/-!
Verification development for the Zenai repository.

The embedding below translates the playback / streaming core of the
repository into Lean:

* `LiveState`, `chunkStart`, `onAudioChunk`, `onInterrupt` embed the live
  duplex streaming session (`LiveSession` component, `onmessage` handler):
  `nextStartTimeRef`, `sourcesRef` and the scheduling arithmetic
  `nextStartTime = max(nextStartTime, ctx.currentTime)`,
  `source.start(nextStartTime)`, `nextStartTime += buffer.duration`.
* `PlayerState`, `startAudio`, `stopAudio`, `togglePlay`, `updateProgress`
  embed the meditation player (`MeditationPlayer.tsx`).
* `decodeAudioData`, `bytesToInt16List` embed the audio codec adapter
  (`services/gemini.ts`).
* `activeCaption` embeds the caption lookup inside `updateProgress`.
* `applyIntent` embeds the voice-command intent handling in `App.tsx`.
* `toInt16JS` embeds the outgoing microphone 16-bit PCM conversion
  (`int16[i] = inputData[i] * 32768` stored into an `Int16Array`).

Clock values, durations and audio samples are modelled as rationals; the
single-threaded event-loop semantics of the browser is modelled by applying
the corresponding state transformers in sequence.
-/

namespace Zenai

/-! ## Duplex streaming session (LiveSession, `src/unnamed/part_000`) -/

/-- One scheduled output handle (`AudioBufferSourceNode`): the clock time its
playback was scheduled to start at, and whether `stop()` has been called. -/
structure Handle where
  startAt : ℚ
  stopped : Bool
deriving DecidableEq

/-- The mutable state of the live session: `nextStartTimeRef` (the cursor) and
`sourcesRef` (the set of scheduled, not-yet-interrupted handles). -/
structure LiveState where
  nextStartTime : ℚ
  sources : List Handle
deriving DecidableEq

/-- Model of `Math.max(nextStartTimeRef.current, audioContextRef.current.currentTime)`:
the start time chosen for an inbound chunk processed at clock `now`. -/
def chunkStart (st : LiveState) (now : ℚ) : ℚ :=
  max st.nextStartTime now

/-- The audio branch of the `onmessage` handler: schedule the decoded chunk at
`chunkStart`, advance the cursor by the chunk duration `d`, and add the new
handle to the source set. -/
def onAudioChunk (st : LiveState) (now d : ℚ) : LiveState :=
  { nextStartTime := chunkStart st now + d,
    sources := st.sources ++ [{ startAt := chunkStart st now, stopped := false }] }

/-- Effect of `s.stop()` on an output handle. -/
def stopHandle (h : Handle) : Handle :=
  { h with stopped := true }

/-- The interruption branch of the `onmessage` handler:
`sourcesRef.current.forEach(s => s.stop()); sourcesRef.current.clear();
nextStartTimeRef.current = 0;`.  Returns the handles after the `stop()` calls
together with the new session state. -/
def onInterrupt (st : LiveState) : List Handle × LiveState :=
  (st.sources.map stopHandle, { nextStartTime := 0, sources := [] })

/-- The start times chosen for a sequence of inbound chunks, each given as a
pair `(arrival clock, duration)`, processed in order from state `st`. -/
def startTimesFrom (st : LiveState) : List (ℚ × ℚ) → List ℚ
  | [] => []
  | c :: rest => chunkStart st c.1 :: startTimesFrom (onAudioChunk st c.1 c.2) rest

theorem startTimesFrom_length (chunks : List (ℚ × ℚ)) :
    ∀ st : LiveState, (startTimesFrom st chunks).length = chunks.length := by
  induction chunks with
  | nil => intro st; rfl
  | cons c rest ih => intro st; simp [startTimesFrom, ih]

theorem startTimesFrom_cons (st : LiveState) (c : ℚ × ℚ) (rest : List (ℚ × ℚ)) :
    startTimesFrom st (c :: rest)
      = chunkStart st c.1 :: startTimesFrom (onAudioChunk st c.1 c.2) rest := rfl

/-- If the clock at processing time is strictly below the chosen start time,
the chosen start time is exactly the cursor. -/
theorem chunkStart_eq_of_lt (st : LiveState) (now : ℚ)
    (h : now < chunkStart st now) : chunkStart st now = st.nextStartTime := by
  rcases max_choice st.nextStartTime now with hmax | hmax
  · exact hmax
  · rw [chunkStart, hmax] at h
    exact absurd h (lt_irrefl now)

/-- Core of the gapless-scheduling argument: whenever chunk `i+1` of a run is
processed strictly before its chosen start time, that start time equals the
previous chunk's start time plus the previous chunk's duration. -/
theorem startTimesFrom_gapless (chunks : List (ℚ × ℚ)) :
    ∀ (st : LiveState) (i : ℕ), i + 1 < chunks.length →
      (chunks.getD (i + 1) (0, 0)).1 < (startTimesFrom st chunks).getD (i + 1) 0 →
      (startTimesFrom st chunks).getD (i + 1) 0
        = (startTimesFrom st chunks).getD i 0 + (chunks.getD i (0, 0)).2 := by
  induction chunks with
  | nil =>
    intro st i hlen _
    simp at hlen
  | cons c rest ih =>
    intro st i hlen harr
    cases i with
    | zero =>
      cases rest with
      | nil => simp at hlen
      | cons c2 rest2 =>
        simp only [startTimesFrom, List.getD_cons_succ, List.getD_cons_zero] at harr ⊢
        rw [chunkStart_eq_of_lt (onAudioChunk st c.1 c.2) c2.1 harr]
        rfl
    | succ j =>
      simp only [startTimesFrom, List.getD_cons_succ] at harr ⊢
      exact ih (onAudioChunk st c.1 c.2) j (by simpa using hlen) harr

/-- C1: each inbound chunk is scheduled at `startAt = max(cursor, clock)`, the
cursor then advances to `startAt + duration`, and for any run of chunks whose
arrival (processing clock) strictly precedes the chosen start time the start
times chain back-to-back: `start_{i+1} = start_i + d_i`. -/
theorem audio_chunks_schedule_gapless (st : LiveState) (now d : ℚ)
    (chunks : List (ℚ × ℚ)) (i : ℕ) (hlen : i + 1 < chunks.length)
    (harr : (chunks.getD (i + 1) (0, 0)).1 < (startTimesFrom st chunks).getD (i + 1) 0) :
    chunkStart st now = max st.nextStartTime now
    ∧ (onAudioChunk st now d).nextStartTime = chunkStart st now + d
    ∧ (startTimesFrom st chunks).getD (i + 1) 0
        = (startTimesFrom st chunks).getD i 0 + (chunks.getD i (0, 0)).2 :=
  ⟨rfl, rfl, startTimesFrom_gapless chunks st i hlen harr⟩

/-- Witness for C1: two chunks of durations 2 and 3; the second arrives at
clock 1, before its computed start time 2, so it starts exactly at
`start_0 + d_0 = 0 + 2`. -/
theorem audio_chunks_schedule_gapless_witness :
    (0 + 1 < ([((0 : ℚ), (2 : ℚ)), (1, 3)] : List (ℚ × ℚ)).length
      ∧ (([((0 : ℚ), (2 : ℚ)), (1, 3)] : List (ℚ × ℚ)).getD (0 + 1) (0, 0)).1
          < (startTimesFrom ⟨0, []⟩ [((0 : ℚ), (2 : ℚ)), (1, 3)]).getD (0 + 1) 0)
    ∧ (startTimesFrom ⟨0, []⟩ [((0 : ℚ), (2 : ℚ)), (1, 3)]).getD (0 + 1) 0
        = (startTimesFrom ⟨0, []⟩ [((0 : ℚ), (2 : ℚ)), (1, 3)]).getD 0 0
          + (([((0 : ℚ), (2 : ℚ)), (1, 3)] : List (ℚ × ℚ)).getD 0 (0, 0)).2 := by
  have harr : (([((0 : ℚ), (2 : ℚ)), (1, 3)] : List (ℚ × ℚ)).getD (0 + 1) (0, 0)).1
      < (startTimesFrom ⟨0, []⟩ [((0 : ℚ), (2 : ℚ)), (1, 3)]).getD (0 + 1) 0 := by
    simp only [startTimesFrom, onAudioChunk, chunkStart, List.getD_cons_succ,
      List.getD_cons_zero, max_self, zero_add]
    rw [max_eq_left (by norm_num : (1 : ℚ) ≤ 2)]
    norm_num
  exact ⟨⟨by norm_num, harr⟩,
    (audio_chunks_schedule_gapless ⟨0, []⟩ 0 0 [((0 : ℚ), (2 : ℚ)), (1, 3)] 0
      (by norm_num) harr).2.2⟩

/-- C2: after the interruption branch runs, every handle that was in the
active set has been stopped, the active set is empty, the cursor is 0, and a
chunk processed at any non-negative clock `now` is scheduled to start at
`max(0, now) = now`, i.e. at (hence not before) the current output clock. -/
theorem interrupt_flushes_and_resets (st : LiveState) :
    (∀ h ∈ (onInterrupt st).1, h.stopped = true)
    ∧ (onInterrupt st).1 = st.sources.map stopHandle
    ∧ (onInterrupt st).2.sources = []
    ∧ (onInterrupt st).2.nextStartTime = 0
    ∧ ∀ now : ℚ, 0 ≤ now →
        now ≤ chunkStart (onInterrupt st).2 now ∧ chunkStart (onInterrupt st).2 now = now := by
  refine ⟨?_, rfl, rfl, rfl, ?_⟩
  · intro h hmem
    rcases List.mem_map.mp hmem with ⟨a, _, ha⟩
    rw [← ha]
    rfl
  · intro now hnow
    have hstart : chunkStart (onInterrupt st).2 now = now := max_eq_right hnow
    exact ⟨le_of_eq hstart.symm, hstart⟩

/-- Witness for C2: a session with one scheduled handle and cursor 7; after the
interrupt the handle is stopped, the set is empty, the cursor is 0, and a
chunk processed at clock 3 starts exactly at 3. -/
theorem interrupt_flushes_and_resets_witness :
    ((0 : ℚ) ≤ 3)
    ∧ (∀ h ∈ (onInterrupt ⟨7, [{ startAt := 5, stopped := false }]⟩).1, h.stopped = true)
    ∧ (onInterrupt ⟨7, [{ startAt := 5, stopped := false }]⟩).2.sources = []
    ∧ (onInterrupt ⟨7, [{ startAt := 5, stopped := false }]⟩).2.nextStartTime = 0
    ∧ chunkStart (onInterrupt ⟨7, [{ startAt := 5, stopped := false }]⟩).2 3 = 3 :=
  ⟨by norm_num,
    (interrupt_flushes_and_resets _).1,
    (interrupt_flushes_and_resets _).2.2.1,
    (interrupt_flushes_and_resets _).2.2.2.1,
    ((interrupt_flushes_and_resets ⟨7, [{ startAt := 5, stopped := false }]⟩).2.2.2.2 3
      (by norm_num)).2⟩

/-! ## Caption tracker (`updateProgress` in `MeditationPlayer.tsx`) -/

/-- One caption segment of a meditation script. -/
structure Segment where
  text : String
  startSecond : ℚ
  endSecond : ℚ
deriving DecidableEq

/-- The predicate `elapsed >= s.startSecond && elapsed <= s.endSecond` used in
the `segments.find(...)` call. -/
def segContains (t : ℚ) (s : Segment) : Bool :=
  decide (s.startSecond ≤ t) && decide (t ≤ s.endSecond)

/-- Model of `segments.find(s => elapsed >= s.startSecond && elapsed <= s.endSecond)`
followed by `segment ? segment.text : ""`. -/
def activeCaption (t : ℚ) (segs : List Segment) : String :=
  match segs.find? (segContains t) with
  | some s => s.text
  | none => ""

/-! ## Playback clock and scheduler (`MeditationPlayer.tsx`) -/

/-- An `AudioBufferSourceNode` created by `startAudio`, tracked only by
whether `stop()` has been called on it.  A node is active while not
stopped. -/
structure SourceNode where
  stopped : Bool
deriving DecidableEq

/-- The player state: React state (`isPlaying`, `currentTime`,
`currentSubtitle`, `duration`) and refs (`sourceNodeRef` as an index into the
list of all nodes created so far, `startTimeRef`, `pausedTimeRef`, and the
animation-frame registration).  `segments` is the session's script. -/
structure PlayerState where
  isPlaying : Bool
  sourceNode : Option ℕ
  nodes : List SourceNode
  startTime : ℚ
  pausedTime : ℚ
  currentTime : ℚ
  currentSubtitle : String
  duration : ℚ
  segments : List Segment
  rafActive : Bool
deriving DecidableEq

/-- The freshly mounted player after `initAudio` computed the buffer duration
`d`: nothing playing, no node, all clocks at 0. -/
def initPlayer (d : ℚ) (segs : List Segment) : PlayerState :=
  { isPlaying := false, sourceNode := none, nodes := [], startTime := 0,
    pausedTime := 0, currentTime := 0, currentSubtitle := "", duration := d,
    segments := segs, rafActive := false }

/-- Model of `stopAudio`: stop the current source node if any, drop the ref, cancel the
animation frame, and clear `isPlaying`.  Note it does not touch
`currentTime` or `pausedTimeRef`. -/
def stopAudio (st : PlayerState) : PlayerState :=
  { st with
    nodes := match st.sourceNode with
      | some j => st.nodes.set j { stopped := true }
      | none => st.nodes,
    sourceNode := none,
    rafActive := false,
    isPlaying := false }

/-- Model of `startAudio(fromTime)` invoked at output clock `now`: create a fresh
source node, start it at offset `fromTime`, record
`startTimeRef = now - fromTime`, set `isPlaying`, and request the progress
animation frame. -/
def startAudio (st : PlayerState) (now fromTime : ℚ) : PlayerState :=
  { st with
    nodes := st.nodes ++ [{ stopped := false }],
    sourceNode := some st.nodes.length,
    startTime := now - fromTime,
    isPlaying := true,
    rafActive := true }

/-- Model of `togglePlay` at output clock `now`: when playing, capture
`pausedTimeRef = now - startTimeRef` and stop; otherwise start from the
captured paused offset. -/
def togglePlay (st : PlayerState) (now : ℚ) : PlayerState :=
  if st.isPlaying then
    stopAudio { st with pausedTime := now - st.startTime }
  else
    startAudio st now st.pausedTime

/-- The quantity `elapsed = audioContext.currentTime - startTimeRef.current`. -/
def elapsedAt (st : PlayerState) (now : ℚ) : ℚ :=
  now - st.startTime

/-- Model of `updateProgress` at output clock `now`: bail out when not playing,
otherwise publish the elapsed time and active caption, and on
`elapsed >= duration` stop and clamp the displayed time to the duration. -/
def updateProgress (st : PlayerState) (now : ℚ) : PlayerState :=
  if st.isPlaying then
    let elapsed := elapsedAt st now
    let st1 := { st with
      currentTime := elapsed,
      currentSubtitle := activeCaption elapsed st.segments }
    if st.duration ≤ elapsed then
      { stopAudio st1 with currentTime := st1.duration }
    else st1
  else
    { st with rafActive := false }

/-- The operations a user / external command can drive the player with.
`extPlay` and `extPause` are the `externalCommand` effect, which toggles only
when the command disagrees with the current playing state. -/
inductive PlayerOp where
  | toggle (now : ℚ)
  | stop
  | tick (now : ℚ)
  | extPlay (now : ℚ)
  | extPause (now : ℚ)

def runOp (st : PlayerState) : PlayerOp → PlayerState
  | .toggle now => togglePlay st now
  | .stop => stopAudio st
  | .tick now => updateProgress st now
  | .extPlay now => if st.isPlaying then st else togglePlay st now
  | .extPause now => if st.isPlaying then togglePlay st now else st

def runOps (st : PlayerState) (ops : List PlayerOp) : PlayerState :=
  ops.foldl runOp st

/-- Number of created source nodes that are still active (not stopped). -/
def activeNodeCount (st : PlayerState) : ℕ :=
  st.nodes.countP (fun n => !n.stopped)

/-- The scheduler invariant: `isPlaying` mirrors whether a source-node ref is
held, and every created node other than the referenced one has been
stopped. -/
def PlayerInv (st : PlayerState) : Prop :=
  st.isPlaying = st.sourceNode.isSome
  ∧ ∀ (k : ℕ) (n : SourceNode), st.nodes[k]? = some n → st.sourceNode ≠ some k →
      n.stopped = true

theorem playerInv_init (d : ℚ) (segs : List Segment) : PlayerInv (initPlayer d segs) := by
  refine ⟨rfl, ?_⟩
  intro k n hk _
  simp [initPlayer] at hk

theorem playerInv_stopAudio (st : PlayerState) (h : PlayerInv st) :
    PlayerInv (stopAudio st) := by
  obtain ⟨h1, h2⟩ := h
  refine ⟨rfl, ?_⟩
  intro k n hk _
  cases hsn : st.sourceNode with
  | none =>
    simp only [stopAudio, hsn] at hk
    exact h2 k n hk (by simp [hsn])
  | some j =>
    simp only [stopAudio, hsn] at hk
    rw [List.getElem?_set] at hk
    by_cases hjk : j = k
    · rw [if_pos hjk] at hk
      by_cases hjl : j < st.nodes.length
      · rw [if_pos hjl] at hk
        cases hk
        rfl
      · rw [if_neg hjl] at hk
        cases hk
    · rw [if_neg hjk] at hk
      exact h2 k n hk (by simp [hsn, hjk])

theorem playerInv_startAudio (st : PlayerState) (now fromTime : ℚ)
    (hp : st.isPlaying = false) (h : PlayerInv st) :
    PlayerInv (startAudio st now fromTime) := by
  obtain ⟨h1, h2⟩ := h
  have hsn : st.sourceNode = none := by
    cases hsome : st.sourceNode with
    | none => rfl
    | some j => rw [hsome, hp] at h1; simp at h1
  refine ⟨rfl, ?_⟩
  intro k n hk hne
  have hkne : k ≠ st.nodes.length := by
    intro hkeq
    exact hne (by simp [startAudio, hkeq])
  simp only [startAudio] at hk
  by_cases hklt : k < st.nodes.length
  · rw [List.getElem?_append_left hklt] at hk
    exact h2 k n hk (by simp [hsn])
  · rw [List.getElem?_append_right (by omega)] at hk
    have hge : 1 ≤ k - st.nodes.length := by omega
    rw [List.getElem?_eq_none (by simpa using hge)] at hk
    cases hk

theorem playerInv_togglePlay (st : PlayerState) (now : ℚ) (h : PlayerInv st) :
    PlayerInv (togglePlay st now) := by
  unfold togglePlay
  by_cases hp : st.isPlaying
  · rw [if_pos hp]
    apply playerInv_stopAudio
    obtain ⟨h1, h2⟩ := h
    exact ⟨h1, h2⟩
  · rw [if_neg hp]
    exact playerInv_startAudio st now st.pausedTime (by simpa using hp) h

theorem playerInv_updateProgress (st : PlayerState) (now : ℚ) (h : PlayerInv st) :
    PlayerInv (updateProgress st now) := by
  unfold updateProgress
  by_cases hp : st.isPlaying
  · rw [if_pos hp]
    by_cases hd : st.duration ≤ elapsedAt st now
    · rw [if_pos hd]
      obtain ⟨h1, h2⟩ := h
      have hmid : PlayerInv { st with
          currentTime := elapsedAt st now,
          currentSubtitle := activeCaption (elapsedAt st now) st.segments } := ⟨h1, h2⟩
      obtain ⟨g1, g2⟩ := playerInv_stopAudio _ hmid
      exact ⟨g1, g2⟩
    · rw [if_neg hd]
      obtain ⟨h1, h2⟩ := h
      exact ⟨h1, h2⟩
  · rw [if_neg hp]
    obtain ⟨h1, h2⟩ := h
    exact ⟨h1, h2⟩

theorem playerInv_runOp (st : PlayerState) (op : PlayerOp) (h : PlayerInv st) :
    PlayerInv (runOp st op) := by
  cases op with
  | toggle now => exact playerInv_togglePlay st now h
  | stop => exact playerInv_stopAudio st h
  | tick now => exact playerInv_updateProgress st now h
  | extPlay now =>
    simp only [runOp]
    by_cases hp : st.isPlaying
    · rw [if_pos hp]; exact h
    · rw [if_neg hp]; exact playerInv_togglePlay st now h
  | extPause now =>
    simp only [runOp]
    by_cases hp : st.isPlaying
    · rw [if_pos hp]; exact playerInv_togglePlay st now h
    · rw [if_neg hp]; exact h

theorem playerInv_runOps (ops : List PlayerOp) :
    ∀ st : PlayerState, PlayerInv st → PlayerInv (runOps st ops) := by
  induction ops with
  | nil => intro st h; exact h
  | cons op rest ih =>
    intro st h
    exact ih (runOp st op) (playerInv_runOp st op h)

/-- Lists in which every entry away from one index `j` is stopped have at most
one active node. -/
theorem countP_le_one_of_all_but_one (l : List SourceNode) :
    ∀ j : ℕ, (∀ (k : ℕ) (n : SourceNode), l[k]? = some n → k ≠ j → n.stopped = true) →
      l.countP (fun n => !n.stopped) ≤ 1 := by
  induction l with
  | nil => intro j _; simp [List.countP_nil]
  | cons n tl ih =>
    intro j h
    cases j with
    | zero =>
      have htl : tl.countP (fun n => !n.stopped) = 0 := by
        rw [List.countP_eq_zero]
        intro a ha
        rcases List.mem_iff_getElem?.mp ha with ⟨k, hk⟩
        have := h (k + 1) a (by simpa using hk) (Nat.succ_ne_zero k)
        simp [this]
      rw [List.countP_cons, htl]
      split <;> omega
    | succ j0 =>
      have hn : n.stopped = true := h 0 n (by simp) (by omega)
      rw [List.countP_cons]
      have hzero : (if (fun m : SourceNode => !m.stopped) n = true then 1 else 0) = 0 := by
        simp [hn]
      rw [hzero, add_zero]
      apply ih j0
      intro k m hk hkj
      exact h (k + 1) m (by simpa using hk) (by omega)

/-- In every state satisfying the invariant there is at most one active node,
and none at all when no source-node ref is held. -/
theorem activeNodeCount_le_one (st : PlayerState) (h : PlayerInv st) :
    activeNodeCount st ≤ 1 ∧ (st.sourceNode = none → activeNodeCount st = 0) := by
  obtain ⟨_, h2⟩ := h
  have hnone : st.sourceNode = none → activeNodeCount st = 0 := by
    intro hsn
    rw [activeNodeCount, List.countP_eq_zero]
    intro a ha
    rcases List.mem_iff_getElem?.mp ha with ⟨k, hk⟩
    have := h2 k a hk (by simp [hsn])
    simp [this]
  refine ⟨?_, hnone⟩
  cases hsn : st.sourceNode with
  | none => rw [hnone hsn]; omega
  | some j =>
    apply countP_le_one_of_all_but_one st.nodes j
    intro k n hk hkj
    exact h2 k n hk (by simp [hsn, Ne.symm hkj])

/-- C3: for every sequence of play/pause/stop (and tick / external command)
operations from the freshly mounted player, at most one source node is ever
active, and whenever the player is not playing (the only state from which
`togglePlay` starts output) no node is active at all — so toggling never
double-starts output or leaks a handle. -/
theorem player_at_most_one_active_handle (d : ℚ) (segs : List Segment)
    (ops : List PlayerOp) :
    activeNodeCount (runOps (initPlayer d segs) ops) ≤ 1
    ∧ ((runOps (initPlayer d segs) ops).isPlaying = false →
        activeNodeCount (runOps (initPlayer d segs) ops) = 0) := by
  have hinv := playerInv_runOps ops (initPlayer d segs) (playerInv_init d segs)
  obtain ⟨hle, hnone⟩ := activeNodeCount_le_one _ hinv
  refine ⟨hle, ?_⟩
  intro hp
  apply hnone
  obtain ⟨h1, _⟩ := hinv
  rw [hp] at h1
  cases hsn : (runOps (initPlayer d segs) ops).sourceNode with
  | none => rfl
  | some j => rw [hsn] at h1; simp at h1

/-- Witness for C3: after toggling play at clock 0 and pause at clock 1 the
player is not playing and no node is active. -/
theorem player_at_most_one_active_handle_witness :
    (runOps (initPlayer 10 []) [.toggle 0, .toggle 1]).isPlaying = false
    ∧ activeNodeCount (runOps (initPlayer 10 []) [.toggle 0, .toggle 1]) = 0 := by
  have hp : (runOps (initPlayer 10 []) [.toggle 0, .toggle 1]).isPlaying = false := by
    simp [runOps, runOp, togglePlay, startAudio, stopAudio, initPlayer]
  exact ⟨hp, (player_at_most_one_active_handle 10 [] [.toggle 0, .toggle 1]).2 hp⟩

/-- C4: starting playback at clock `t0` records `startTime = t0`; pausing at
clock `t1` captures `pausedTime = t1 - startTime` (the elapsed position at the
pause); resuming at clock `t2` restores exactly that position: the elapsed
time at the resume instant equals the captured paused offset. -/
theorem pause_captures_resume_restores (d : ℚ) (segs : List Segment)
    (t0 t1 t2 : ℚ) :
    (togglePlay (initPlayer d segs) t0).startTime = t0
    ∧ (togglePlay (togglePlay (initPlayer d segs) t0) t1).pausedTime
        = elapsedAt (togglePlay (initPlayer d segs) t0) t1
    ∧ elapsedAt (togglePlay (togglePlay (togglePlay (initPlayer d segs) t0) t1) t2) t2
        = (togglePlay (togglePlay (initPlayer d segs) t0) t1).pausedTime := by
  refine ⟨?_, ?_, ?_⟩ <;>
    simp [togglePlay, startAudio, stopAudio, initPlayer, elapsedAt]

/-- C5 counterexample: play at clock 0, tick at clock 5 (duration 100), then
`stopAudio`: the elapsed position stays 5 — `stopAudio` does not reset it
to 0. -/
theorem stop_does_not_reset_elapsed :
    (stopAudio (updateProgress (togglePlay (initPlayer 100 []) 0) 5)).currentTime = 5
    ∧ (stopAudio (updateProgress (togglePlay (initPlayer 100 []) 0) 5)).currentTime ≠ 0 := by
  have h5 : (stopAudio (updateProgress (togglePlay (initPlayer 100 []) 0) 5)).currentTime
      = 5 := by
    simp only [togglePlay, initPlayer, Bool.false_eq_true, if_false, startAudio,
      updateProgress, elapsedAt, stopAudio]
    norm_num
  exact ⟨h5, by rw [h5]; norm_num⟩

/-- C5 (amended): `stopAudio` is total (valid in every state); from any
reachable state it leaves no active node, cancels the animation-frame tick,
clears the playing flag and the node ref, and leaves the elapsed position
(`currentTime` and the captured `pausedTime`) unchanged rather than resetting
it to 0. -/
theorem stop_teardown_keeps_elapsed (d : ℚ) (segs : List Segment)
    (ops : List PlayerOp) :
    activeNodeCount (stopAudio (runOps (initPlayer d segs) ops)) = 0
    ∧ (stopAudio (runOps (initPlayer d segs) ops)).rafActive = false
    ∧ (stopAudio (runOps (initPlayer d segs) ops)).isPlaying = false
    ∧ (stopAudio (runOps (initPlayer d segs) ops)).sourceNode = none
    ∧ (stopAudio (runOps (initPlayer d segs) ops)).currentTime
        = (runOps (initPlayer d segs) ops).currentTime
    ∧ (stopAudio (runOps (initPlayer d segs) ops)).pausedTime
        = (runOps (initPlayer d segs) ops).pausedTime := by
  have hinv := playerInv_stopAudio _
    (playerInv_runOps ops (initPlayer d segs) (playerInv_init d segs))
  obtain ⟨_, hnone⟩ := activeNodeCount_le_one _ hinv
  exact ⟨hnone rfl, rfl, rfl, rfl, rfl, rfl⟩

/-- C8: `activeCaption` returns the empty string when no segment contains `t`,
and the text of the first segment (in list order) containing `t`
otherwise. -/
theorem activeCaption_first_match (t : ℚ) (segs : List Segment) :
    ((∀ s ∈ segs, segContains t s = false) → activeCaption t segs = "")
    ∧ ∀ (i : ℕ) (s : Segment), segs[i]? = some s → segContains t s = true →
        (∀ (j : ℕ) (s2 : Segment), j < i → segs[j]? = some s2 →
          segContains t s2 = false) →
        activeCaption t segs = s.text := by
  constructor
  · intro hall
    rw [activeCaption, List.find?_eq_none.mpr]
    intro s hs
    simp [hall s hs]
  · induction segs with
    | nil =>
      intro i s hi _ _
      simp at hi
    | cons c rest ih =>
      intro i s hi hcont hfirst
      cases i with
      | zero =>
        simp only [List.getElem?_cons_zero, Option.some.injEq] at hi
        subst hi
        rw [activeCaption, List.find?_cons_of_pos _ hcont]
      | succ i0 =>
        have hc : segContains t c = false :=
          hfirst 0 c (Nat.succ_pos i0) (by simp)
        have hstep : activeCaption t (c :: rest) = activeCaption t rest := by
          rw [activeCaption, activeCaption, List.find?_cons_of_neg _ (by simp [hc])]
        rw [hstep]
        apply ih i0 s (by simpa using hi) hcont
        intro j s2 hj hs2
        exact hfirst (j + 1) s2 (by omega) (by simpa using hs2)

/-- Witness for C8: in the scenario segments
`[intro 0-10, breathe 10-170, close 170-180]` the caption at `t = 175` is
`close` (segment index 2, the first containing 175), and at `t = 200` no
segment matches and the caption is empty. -/
theorem activeCaption_first_match_witness :
    (segContains 175 { text := "close", startSecond := 170, endSecond := 180 } = true
      ∧ activeCaption 175
          [{ text := "intro", startSecond := 0, endSecond := 10 },
           { text := "breathe", startSecond := 10, endSecond := 170 },
           { text := "close", startSecond := 170, endSecond := 180 }] = "close")
    ∧ activeCaption 200
        [{ text := "intro", startSecond := 0, endSecond := 10 },
         { text := "breathe", startSecond := 10, endSecond := 170 },
         { text := "close", startSecond := 170, endSecond := 180 }] = "" := by
  refine ⟨⟨by decide, ?_⟩, ?_⟩
  · apply (activeCaption_first_match 175 _).2 2
      { text := "close", startSecond := 170, endSecond := 180 }
      (by decide) (by decide)
    intro j s2 hj hs2
    interval_cases j <;>
      simp only [List.getElem?_cons_zero, List.getElem?_cons_succ,
        Option.some.injEq] at hs2 <;>
      rw [← hs2] <;> decide
  · apply (activeCaption_first_match 200 _).1
    intro s hs
    fin_cases hs <;> decide

/-! ## Audio codec adapter (`decodeAudioData` in `services/gemini.ts`) -/

/-- Reinterpret two consecutive bytes as one little-endian signed 16-bit
sample, as an `Int16Array` view of the byte buffer does. -/
def toInt16Pair (b0 b1 : ℕ) : ℤ :=
  let v := b0 % 256 + 256 * (b1 % 256)
  if v < 32768 then (v : ℤ) else (v : ℤ) - 65536

/-- Model of `new Int16Array(data.buffer)`: the byte list viewed as 16-bit samples (a
trailing odd byte views to nothing; the constructor itself rejects odd buffer
lengths, handled in `decodeAudioData`). -/
def bytesToInt16List : List ℕ → List ℤ
  | b0 :: b1 :: rest => toInt16Pair b0 b1 :: bytesToInt16List rest
  | _ => []

theorem bytesToInt16List_length : ∀ l : List ℕ, (bytesToInt16List l).length = l.length / 2
  | [] => rfl
  | [_] => by simp [bytesToInt16List]
  | _ :: _ :: rest => by
    simp only [bytesToInt16List, List.length_cons]
    rw [bytesToInt16List_length rest]
    omega

theorem toInt16Pair_bounds (b0 b1 : ℕ) :
    -32768 ≤ toInt16Pair b0 b1 ∧ toInt16Pair b0 b1 ≤ 32767 := by
  have h0 : b0 % 256 < 256 := Nat.mod_lt _ (by norm_num)
  have h1 : b1 % 256 < 256 := Nat.mod_lt _ (by norm_num)
  rw [toInt16Pair]
  split <;> constructor <;> push_cast <;> omega

theorem bytesToInt16List_bounds :
    ∀ l : List ℕ, ∀ x ∈ bytesToInt16List l, -32768 ≤ x ∧ x ≤ 32767
  | [] => by intro x hx; simp [bytesToInt16List] at hx
  | [_] => by intro x hx; simp [bytesToInt16List] at hx
  | b0 :: b1 :: rest => by
    intro x hx
    rw [bytesToInt16List, List.mem_cons] at hx
    rcases hx with hx | hx
    · exact hx ▸ toInt16Pair_bounds b0 b1
    · exact bytesToInt16List_bounds rest x hx

/-- A decoded audio buffer: channel count, frame count and per-channel,
channel-separated sample data, as produced by `ctx.createBuffer` plus the
fill loop. -/
structure AudioBuffer where
  numChannels : ℕ
  frameCount : ℕ
  channels : List (List ℚ)
deriving DecidableEq

/-- Model of `decodeAudioData(data, ctx, sampleRate, numChannels)` stripped of the
audio-context plumbing.  It fails exactly where the source throws:

* `new Int16Array(data.buffer)` rejects byte buffers of odd length
  (`RangeError`);
* `ctx.createBuffer(numChannels, frameCount, sampleRate)` throws
  `NotSupportedError` when an argument is zero or outside its nominal range —
  the channel count must lie in the Web Audio nominal range 1..32 and the
  frame count must be at least 1.  JS computes the float
  `frameCount = dataInt16.length / numChannels`; `createBuffer` receives its
  WebIDL-truncated integer part (Nat division here).

Otherwise the fill loop stores
`channelData[i] = dataInt16[i * numChannels + channel] / 32768.0`
for every in-range frame `i` (writes the loop attempts past the buffer length
are discarded by the typed array). -/
def decodeAudioData (data : List ℕ) (numChannels : ℕ) : Except String AudioBuffer :=
  if data.length % 2 ≠ 0 then
    Except.error "RangeError: byte length of Int16Array should be a multiple of 2"
  else if numChannels = 0 ∨ 32 < numChannels
      ∨ (bytesToInt16List data).length / numChannels = 0 then
    Except.error "NotSupportedError: createBuffer argument zero or out of nominal range"
  else
    Except.ok
      { numChannels := numChannels,
        frameCount := (bytesToInt16List data).length / numChannels,
        channels := (List.range numChannels).map (fun channel =>
          (List.range ((bytesToInt16List data).length / numChannels)).map (fun i =>
            (((bytesToInt16List data).getD (i * numChannels + channel) 0 : ℤ) : ℚ)
              / 32768)) }

/-- Any 16-bit sample scaled by `1 / 32768` lies in `[-1, 1]`. -/
theorem sample_div_bounds (v : ℤ) (h0 : -32768 ≤ v) (h1 : v ≤ 32767) :
    -1 ≤ (v : ℚ) / 32768 ∧ (v : ℚ) / 32768 ≤ 1 := by
  constructor
  · rw [le_div_iff₀ (by norm_num : (0 : ℚ) < 32768)]
    have hcast : (-32768 : ℚ) ≤ (v : ℚ) := by exact_mod_cast h0
    linarith
  · rw [div_le_one (by norm_num : (0 : ℚ) < 32768)]
    have hcast : (v : ℚ) ≤ 32767 := by exact_mod_cast h1
    linarith

theorem getD_int16_bounds (l : List ℕ) (idx : ℕ) :
    -32768 ≤ (bytesToInt16List l).getD idx 0
      ∧ (bytesToInt16List l).getD idx 0 ≤ 32767 := by
  rw [List.getD_eq_getElem?_getD]
  cases hx : (bytesToInt16List l)[idx]? with
  | none => simp
  | some y =>
    simpa using bytesToInt16List_bounds l y (List.getElem?_mem hx)

/-- C6 counterexample: the empty payload has an even byte length and its
sample count 0 is divisible by the channel count 1, yet decoding throws
`NotSupportedError` in `createBuffer` (frame count 0) instead of yielding a
buffer with `0 / 1 = 0` frames. -/
theorem decode_empty_payload_throws :
    (([] : List ℕ).length % 2 = 0 ∧ 1 ∣ ([] : List ℕ).length / 2)
    ∧ ∃ e, decodeAudioData [] 1 = Except.error e :=
  ⟨⟨rfl, ⟨0, rfl⟩⟩, ⟨_, rfl⟩⟩

/-- C6 (amended): for an even-length payload whose 16-bit sample count `N` is
positive and divisible by the channel count `C`, with `C` in `createBuffer`'s
nominal channel range `1..32`, decoding succeeds with `N / C` frames per
channel; sample `i` of channel `ch` is the 16-bit integer at interleaved
index `i * C + ch` divided by `32768`, and every sample lies in `[-1, 1]`.
(For `N = 0`, or `C` outside `1..32`, `createBuffer` throws instead.) -/
theorem decode_valid_payload (data : List ℕ) (C : ℕ) (hC : 0 < C) (hC32 : C ≤ 32)
    (heven : data.length % 2 = 0) (hdvd : C ∣ data.length / 2)
    (hpos : 0 < data.length / 2) :
    ∃ buf, decodeAudioData data C = Except.ok buf
      ∧ buf.frameCount = data.length / 2 / C
      ∧ buf.channels.length = C
      ∧ (∀ chl ∈ buf.channels, chl.length = buf.frameCount)
      ∧ (∀ ch i, ch < C → i < buf.frameCount →
          (buf.channels.getD ch []).getD i 0
            = (((bytesToInt16List data).getD (i * C + ch) 0 : ℤ) : ℚ) / 32768)
      ∧ ∀ chl ∈ buf.channels, ∀ x ∈ chl, -1 ≤ x ∧ x ≤ 1 := by
  have hframes : 0 < data.length / 2 / C := Nat.div_pos (Nat.le_of_dvd hpos hdvd) hC
  have hok : decodeAudioData data C = Except.ok
      { numChannels := C,
        frameCount := (bytesToInt16List data).length / C,
        channels := (List.range C).map (fun channel =>
          (List.range ((bytesToInt16List data).length / C)).map (fun i =>
            (((bytesToInt16List data).getD (i * C + channel) 0 : ℤ) : ℚ)
              / 32768)) } := by
    rw [decodeAudioData, if_neg (not_not_intro heven),
      if_neg (by
        rw [bytesToInt16List_length data]
        push_neg
        exact ⟨Nat.pos_iff_ne_zero.mp hC, hC32, Nat.pos_iff_ne_zero.mp hframes⟩)]
  refine ⟨_, hok, ?_, by simp, ?_, ?_, ?_⟩
  · simp [bytesToInt16List_length data]
  · intro chl hchl
    rcases List.mem_map.mp hchl with ⟨ch, _, hche⟩
    rw [← hche]
    simp
  · intro ch i hch hi
    have hi2 : i < (bytesToInt16List data).length / C := by
      simpa [bytesToInt16List_length data] using hi
    simp [List.getD_eq_getElem?_getD, List.getElem?_map, List.getElem?_range, hch, hi2]
  · intro chl hchl x hx
    rcases List.mem_map.mp hchl with ⟨ch, _, hche⟩
    rw [← hche] at hx
    rcases List.mem_map.mp hx with ⟨i, _, hie⟩
    rw [← hie]
    obtain ⟨hb0, hb1⟩ := getD_int16_bounds data (i * C + ch)
    exact sample_div_bounds _ hb0 hb1

/-- Witness for C6 (amended): the 4-byte payload `[0, 0, 0, 128]` (samples `0`
and `-32768`) with one channel decodes to two frames whose second sample is
`-32768 / 32768 = -1`. -/
theorem decode_valid_payload_witness :
    (0 < 1 ∧ 1 ≤ 32 ∧ ([0, 0, 0, 128] : List ℕ).length % 2 = 0
        ∧ 1 ∣ ([0, 0, 0, 128] : List ℕ).length / 2
        ∧ 0 < ([0, 0, 0, 128] : List ℕ).length / 2)
    ∧ ∃ buf, decodeAudioData [0, 0, 0, 128] 1 = Except.ok buf
        ∧ buf.frameCount = ([0, 0, 0, 128] : List ℕ).length / 2 / 1
        ∧ buf.channels.length = 1
        ∧ (∀ chl ∈ buf.channels, chl.length = buf.frameCount)
        ∧ (∀ ch i, ch < 1 → i < buf.frameCount →
            (buf.channels.getD ch []).getD i 0
              = (((bytesToInt16List [0, 0, 0, 128]).getD (i * 1 + ch) 0 : ℤ) : ℚ)
                / 32768)
        ∧ ∀ chl ∈ buf.channels, ∀ x ∈ chl, -1 ≤ x ∧ x ≤ 1 :=
  ⟨⟨by norm_num, by norm_num, by norm_num, by norm_num, by norm_num⟩,
    decode_valid_payload [0, 0, 0, 128] 1 (by norm_num) (by norm_num) (by norm_num)
      (by norm_num) (by norm_num)⟩

/-- C7 counterexample: a 6-byte payload with 2 channels has byte length not a
multiple of `numChannels * 2 = 4`, yet decoding succeeds (the code silently
truncates the fractional frame count 1.5 to one frame instead of failing). -/
theorem decode_no_error_on_misaligned_channels :
    (∃ buf, decodeAudioData [0, 0, 0, 0, 0, 0] 2 = Except.ok buf)
    ∧ ([0, 0, 0, 0, 0, 0] : List ℕ).length % (2 * 2) ≠ 0 :=
  ⟨⟨_, by rw [decodeAudioData, if_neg (by norm_num), if_neg (by decide)]⟩, by norm_num⟩

/-- C7 (amended): decoding fails exactly when the byte length is odd (the
`Int16Array` view), or the channel count is outside `createBuffer`'s nominal
range `1..32`, or the truncated frame count `⌊N / C⌋` is zero; in every other
case — in particular when the sample count `N` is not divisible by `C` but
`⌊N / C⌋ ≥ 1` — decoding succeeds with `⌊N / C⌋` frames rather than
raising. -/
theorem decode_error_characterization (data : List ℕ) (C : ℕ) :
    ((∃ e, decodeAudioData data C = Except.error e)
      ↔ (data.length % 2 ≠ 0 ∨ C = 0 ∨ 32 < C ∨ data.length / 2 / C = 0))
    ∧ (data.length % 2 = 0 → C ≠ 0 → C ≤ 32 → data.length / 2 / C ≠ 0 →
        ∃ buf, decodeAudioData data C = Except.ok buf
          ∧ buf.frameCount = data.length / 2 / C) := by
  have hlen : (bytesToInt16List data).length = data.length / 2 :=
    bytesToInt16List_length data
  constructor
  · constructor
    · rintro ⟨e, he⟩
      by_contra hmod
      push_neg at hmod
      obtain ⟨h1, h2, h3, h4⟩ := hmod
      rw [decodeAudioData, if_neg (not_not_intro h1),
        if_neg (by rw [hlen]; push_neg; exact ⟨h2, h3, h4⟩)] at he
      cases he
    · intro h
      rcases h with h1 | h2
      · exact ⟨_, by rw [decodeAudioData, if_pos h1]⟩
      · by_cases h1 : data.length % 2 ≠ 0
        · exact ⟨_, by rw [decodeAudioData, if_pos h1]⟩
        · exact ⟨_, by rw [decodeAudioData, if_neg h1, if_pos (by rw [hlen]; tauto)]⟩
  · intro h1 h2 h3 h4
    refine ⟨_, by
      rw [decodeAudioData, if_neg (not_not_intro h1),
        if_neg (by rw [hlen]; push_neg; exact ⟨h2, h3, h4⟩)], ?_⟩
    simp [hlen]

/-- Witness for C7 (amended): a 3-byte payload has odd length and decoding
fails; a 2-byte payload with 2 channels hits the zero-frame `createBuffer`
error; a 2-byte mono payload decodes with one frame. -/
theorem decode_error_characterization_witness :
    (([0, 0, 0] : List ℕ).length % 2 ≠ 0
      ∧ ∃ e, decodeAudioData [0, 0, 0] 1 = Except.error e)
    ∧ (([0, 0] : List ℕ).length / 2 / 2 = 0
      ∧ ∃ e, decodeAudioData [0, 0] 2 = Except.error e)
    ∧ (([0, 7] : List ℕ).length % 2 = 0
      ∧ ∃ buf, decodeAudioData [0, 7] 1 = Except.ok buf
          ∧ buf.frameCount = ([0, 7] : List ℕ).length / 2 / 1) :=
  ⟨⟨by norm_num,
      (decode_error_characterization [0, 0, 0] 1).1.mpr (Or.inl (by norm_num))⟩,
    ⟨by norm_num,
      (decode_error_characterization [0, 0] 2).1.mpr
        (Or.inr (Or.inr (Or.inr (by norm_num))))⟩,
    ⟨by norm_num,
      (decode_error_characterization [0, 7] 1).2 (by norm_num) (by norm_num)
        (by norm_num) (by norm_num)⟩⟩

/-! ## Voice-command intent handling (`App.tsx`, `startVoiceControl` onstop) -/

/-- The five meditation themes (`types.ts`). -/
inductive MeditationTheme where
  | forest | ocean | space | mountain | zen
deriving DecidableEq

/-- The five prebuilt voices (`types.ts`). -/
inductive VoiceName where
  | kore | puck | charon | fenrir | zephyr
deriving DecidableEq

/-- Model of `ThemeMap`: the lookup table from intent strings to themes; strings
outside the table yield `none` (a falsy `ThemeMap[intent.theme]`). -/
def ThemeMap (s : String) : Option MeditationTheme :=
  if s = "Forest" then some .forest
  else if s = "Ocean" then some .ocean
  else if s = "Space" then some .space
  else if s = "Mountain" then some .mountain
  else if s = "Zen" then some .zen
  else none

/-- Model of `VoiceMap`: the lookup table from intent strings to voices. -/
def VoiceMap (s : String) : Option VoiceName :=
  if s = "Kore" then some .kore
  else if s = "Puck" then some .puck
  else if s = "Charon" then some .charon
  else if s = "Fenrir" then some .fenrir
  else if s = "Zephyr" then some .zephyr
  else none

/-- Property names every plain JS object literal inherits from
`Object.prototype`: for these keys `obj[k]` does not miss but returns the
inherited member (a function, or the prototype object for `__proto__`), which
is truthy. -/
def objectProtoKeys : List String :=
  ["constructor", "hasOwnProperty", "isPrototypeOf", "propertyIsEnumerable",
   "toLocaleString", "toString", "valueOf", "__defineGetter__",
   "__defineSetter__", "__lookupGetter__", "__lookupSetter__", "__proto__"]

/-- A value that can end up in the theme state: either a real theme, or — via
the prototype-chain leak — the `Object.prototype` member named `name` that the
lookup returned. -/
inductive ThemeValue where
  | ofTheme (t : MeditationTheme)
  | protoMember (name : String)
deriving DecidableEq

/-- A value that can end up in the voice state, analogous to `ThemeValue`. -/
inductive VoiceValue where
  | ofVoice (v : VoiceName)
  | protoMember (name : String)
deriving DecidableEq

/-- The JS expression `ThemeMap[s]` combined with its truthiness test: one of
the five own keys yields its theme; a key inherited from `Object.prototype`
yields the (truthy) inherited member; any other string is `undefined`
(falsy). -/
def themeLookup (s : String) : Option ThemeValue :=
  match ThemeMap s with
  | some t => some (ThemeValue.ofTheme t)
  | none => if s ∈ objectProtoKeys then some (ThemeValue.protoMember s) else none

/-- The JS expression `VoiceMap[s]` combined with its truthiness test. -/
def voiceLookup (s : String) : Option VoiceValue :=
  match VoiceMap s with
  | some v => some (VoiceValue.ofVoice v)
  | none => if s ∈ objectProtoKeys then some (VoiceValue.protoMember s) else none

/-- A parsed voice intent as returned by `processVoiceCommand`: every field is
optional and arrives as a raw string. -/
structure Intent where
  theme : Option String
  voice : Option String
  action : Option String
deriving DecidableEq

/-- The transient playback command forwarded to the player. -/
inductive PlaybackCommand where
  | play | pause | stop
deriving DecidableEq

/-- A generation request kind (`handleGenerate('image' | 'video', ...)`). -/
inductive GenKind where
  | image | video
deriving DecidableEq

/-- The application state touched by the voice-command handler: the selected
theme and voice, the one-shot external playback command, and a pending
generation request (kind plus the theme/voice it was invoked with). -/
structure AppState where
  theme : ThemeValue
  voice : VoiceValue
  externalPlaybackCommand : Option PlaybackCommand
  genRequest : Option (GenKind × ThemeValue × VoiceValue)
deriving DecidableEq

/-- The `recorder.onstop` intent application in `startVoiceControl`:
`if (intent.theme && ThemeMap[intent.theme]) setTheme(ThemeMap[intent.theme])`
— the plain-object lookup including the prototype chain — likewise for voice,
then dispatch on `intent.action`: the two generation actions call
`handleGenerate(type, ThemeMap[intent.theme], VoiceMap[intent.voice])` (which
falls back to the current selections when the lookups are undefined), and
play/pause/stop set the one-shot external playback command. -/
def applyTheme (st : AppState) (it : Intent) : AppState :=
  match it.theme.bind themeLookup with
  | some tv => { st with theme := tv }
  | none => st

def applyVoice (st : AppState) (it : Intent) : AppState :=
  match it.voice.bind voiceLookup with
  | some vv => { st with voice := vv }
  | none => st

def applyAction (st : AppState) (it : Intent) : AppState :=
  match it.action with
  | some a =>
    if a = "generate_image" then
      { st with genRequest := some (GenKind.image,
          (it.theme.bind themeLookup).getD st.theme,
          (it.voice.bind voiceLookup).getD st.voice) }
    else if a = "generate_video" then
      { st with genRequest := some (GenKind.video,
          (it.theme.bind themeLookup).getD st.theme,
          (it.voice.bind voiceLookup).getD st.voice) }
    else if a = "play" then
      { st with externalPlaybackCommand := some PlaybackCommand.play }
    else if a = "pause" then
      { st with externalPlaybackCommand := some PlaybackCommand.pause }
    else if a = "stop" then
      { st with externalPlaybackCommand := some PlaybackCommand.stop }
    else st
  | none => st

def applyIntent (st : AppState) (it : Intent) : AppState :=
  applyAction (applyVoice (applyTheme st it) it) it

theorem applyTheme_of_unrecognized (st : AppState) (it : Intent)
    (h : it.theme.bind themeLookup = none) : applyTheme st it = st := by
  simp [applyTheme, h]

theorem applyVoice_of_unrecognized (st : AppState) (it : Intent)
    (h : it.voice.bind voiceLookup = none) : applyVoice st it = st := by
  simp [applyVoice, h]

theorem applyTheme_of_proto (st : AppState) (it : Intent)
    (h : it.theme.bind themeLookup = some (ThemeValue.protoMember s)) :
    (applyTheme st it).theme = ThemeValue.protoMember s := by
  simp [applyTheme, h]

theorem applyVoice_of_proto (st : AppState) (it : Intent)
    (h : it.voice.bind voiceLookup = some (VoiceValue.protoMember s)) :
    (applyVoice st it).voice = VoiceValue.protoMember s := by
  simp [applyVoice, h]

theorem applyTheme_voice (st : AppState) (it : Intent) :
    (applyTheme st it).voice = st.voice := by
  cases h : it.theme.bind themeLookup <;> simp [applyTheme, h]

theorem applyVoice_theme (st : AppState) (it : Intent) :
    (applyVoice st it).theme = st.theme := by
  cases h : it.voice.bind voiceLookup <;> simp [applyVoice, h]

theorem applyAction_theme (st : AppState) (it : Intent) :
    (applyAction st it).theme = st.theme := by
  cases h : it.action with
  | none => simp [applyAction, h]
  | some a => simp only [applyAction, h]; split_ifs <;> rfl

theorem applyAction_voice (st : AppState) (it : Intent) :
    (applyAction st it).voice = st.voice := by
  cases h : it.action with
  | none => simp [applyAction, h]
  | some a => simp only [applyAction, h]; split_ifs <;> rfl

/-- C9 counterexample: the intent theme `toString` lies outside the
five-element enumeration, yet the plain-object lookup `ThemeMap["toString"]`
returns the inherited `Object.prototype.toString` member, which is truthy, so
the theme state is overwritten with that non-theme value instead of the value
being dropped (while the play action is applied as usual). -/
theorem proto_member_leaks_into_theme :
    ThemeMap "toString" = none
    ∧ (applyIntent ⟨ThemeValue.ofTheme MeditationTheme.zen,
          VoiceValue.ofVoice VoiceName.zephyr, none, none⟩
        ⟨some "toString", none, some "play"⟩).theme
        ≠ ThemeValue.ofTheme MeditationTheme.zen
    ∧ (applyIntent ⟨ThemeValue.ofTheme MeditationTheme.zen,
          VoiceValue.ofVoice VoiceName.zephyr, none, none⟩
        ⟨some "toString", none, some "play"⟩).theme
        = ThemeValue.protoMember "toString"
    ∧ (applyIntent ⟨ThemeValue.ofTheme MeditationTheme.zen,
          VoiceValue.ofVoice VoiceName.zephyr, none, none⟩
        ⟨some "toString", none, some "play"⟩).externalPlaybackCommand
        = some PlaybackCommand.play :=
  ⟨by decide, by decide, by decide, by decide⟩

/-- C9 (amended): an intent theme (resp. voice) string that is neither one of
the five enumeration keys nor the name of an inherited `Object.prototype`
member is dropped, leaving the selected theme (resp. voice) unchanged; a
string naming an `Object.prototype` member, however, passes the truthiness
check and overwrites the theme (resp. voice) with that non-enum inherited
value.  Each of the five recognized actions is applied in every case; in
particular an intent with the unrecognized theme `Atlantis` (not a prototype
member) and action `play` leaves the theme unchanged and still emits the play
command. -/
theorem intent_validation (st : AppState) (it : Intent) :
    (∀ s, it.theme = some s → ThemeMap s = none → s ∉ objectProtoKeys →
        (applyIntent st it).theme = st.theme)
    ∧ (∀ s, it.voice = some s → VoiceMap s = none → s ∉ objectProtoKeys →
        (applyIntent st it).voice = st.voice)
    ∧ (∀ s, it.theme = some s → ThemeMap s = none → s ∈ objectProtoKeys →
        (applyIntent st it).theme = ThemeValue.protoMember s)
    ∧ (∀ s, it.voice = some s → VoiceMap s = none → s ∈ objectProtoKeys →
        (applyIntent st it).voice = VoiceValue.protoMember s)
    ∧ (it.action = some "play" →
        (applyIntent st it).externalPlaybackCommand = some PlaybackCommand.play)
    ∧ (it.action = some "pause" →
        (applyIntent st it).externalPlaybackCommand = some PlaybackCommand.pause)
    ∧ (it.action = some "stop" →
        (applyIntent st it).externalPlaybackCommand = some PlaybackCommand.stop)
    ∧ (it.action = some "generate_image" →
        ∃ th v, (applyIntent st it).genRequest = some (GenKind.image, th, v))
    ∧ (it.action = some "generate_video" →
        ∃ th v, (applyIntent st it).genRequest = some (GenKind.video, th, v))
    ∧ (applyIntent st ⟨some "Atlantis", it.voice, some "play"⟩).theme = st.theme
    ∧ (applyIntent st ⟨some "Atlantis", it.voice, some "play"⟩).externalPlaybackCommand
        = some PlaybackCommand.play := by
  have hatl : ThemeMap "Atlantis" = none := by decide
  have hatlp : "Atlantis" ∉ objectProtoKeys := by decide
  refine ⟨?_, ?_, ?_, ?_, ?_, ?_, ?_, ?_, ?_, ?_, ?_⟩
  · intro s hs hnone hnotin
    rw [applyIntent, applyAction_theme, applyVoice_theme,
      applyTheme_of_unrecognized st it (by rw [hs]; simp [themeLookup, hnone, hnotin])]
  · intro s hs hnone hnotin
    rw [applyIntent, applyAction_voice,
      applyVoice_of_unrecognized _ it (by rw [hs]; simp [voiceLookup, hnone, hnotin]),
      applyTheme_voice]
  · intro s hs hnone hin
    rw [applyIntent, applyAction_theme, applyVoice_theme,
      applyTheme_of_proto st it
        (show it.theme.bind themeLookup = some (ThemeValue.protoMember s) by
          rw [hs]; simp [themeLookup, hnone, hin])]
  · intro s hs hnone hin
    rw [applyIntent, applyAction_voice,
      applyVoice_of_proto _ it
        (show it.voice.bind voiceLookup = some (VoiceValue.protoMember s) by
          rw [hs]; simp [voiceLookup, hnone, hin])]
  · intro ha
    simp only [applyIntent, applyAction, ha]
    rfl
  · intro ha
    simp only [applyIntent, applyAction, ha]
    rfl
  · intro ha
    simp only [applyIntent, applyAction, ha]
    rfl
  · intro ha
    simp only [applyIntent, applyAction, ha]
    exact ⟨_, _, rfl⟩
  · intro ha
    simp only [applyIntent, applyAction, ha]
    exact ⟨_, _, rfl⟩
  · rw [applyIntent, applyAction_theme, applyVoice_theme,
      applyTheme_of_unrecognized st _ (by simp [themeLookup, hatl, hatlp])]
  · simp only [applyIntent, applyAction]
    rfl

/-- Witness for C9 (amended): from the default state (Zen theme, Zephyr
voice), the intent `{theme: "Atlantis", action: "play"}` — `Atlantis` being
neither an enumeration key nor a prototype member — leaves the theme
unchanged and emits the play command. -/
theorem intent_validation_witness :
    (ThemeMap "Atlantis" = none ∧ "Atlantis" ∉ objectProtoKeys)
    ∧ (applyIntent ⟨ThemeValue.ofTheme MeditationTheme.zen,
          VoiceValue.ofVoice VoiceName.zephyr, none, none⟩
        ⟨some "Atlantis", none, some "play"⟩).theme
        = ThemeValue.ofTheme MeditationTheme.zen
    ∧ (applyIntent ⟨ThemeValue.ofTheme MeditationTheme.zen,
          VoiceValue.ofVoice VoiceName.zephyr, none, none⟩
        ⟨some "Atlantis", none, some "play"⟩).externalPlaybackCommand
        = some PlaybackCommand.play :=
  ⟨⟨by decide, by decide⟩,
    (intent_validation ⟨ThemeValue.ofTheme MeditationTheme.zen,
        VoiceValue.ofVoice VoiceName.zephyr, none, none⟩
      ⟨some "Atlantis", none, some "play"⟩).1
      "Atlantis" rfl (by decide) (by decide),
    ((intent_validation ⟨ThemeValue.ofTheme MeditationTheme.zen,
        VoiceValue.ofVoice VoiceName.zephyr, none, none⟩
      ⟨some "Atlantis", none, some "play"⟩).2.2.2.2.1 rfl)⟩

/-! ## Outgoing microphone PCM conversion (`processor.onaudioprocess`) -/

/-- JS number-to-integer truncation (round toward zero). -/
def jsTrunc (q : ℚ) : ℤ :=
  if 0 ≤ q then ⌊q⌋ else ⌈q⌉

/-- Model of `int16[i] = inputData[i] * 32768` with `int16 : Int16Array`: the
ECMAScript ToInt16 conversion — truncate toward zero, reduce modulo `2^16`,
and reinterpret the residue as a signed 16-bit value. -/
def toInt16JS (x : ℚ) : ℤ :=
  let n := jsTrunc (x * 32768)
  let m := n % 65536
  if m < 32768 then m else m - 65536

/-- The per-frame conversion loop in `processor.onaudioprocess`. -/
def micFrameToInt16 (frame : List ℚ) : List ℤ :=
  frame.map toInt16JS

/-- C10: the microphone conversion truncates `value * 32768` and stores it
with 16-bit wraparound: an input of exactly `1.0` wraps to `-32768`, while
every input strictly inside `[-1, 1)` maps to plain truncation of
`value * 32768` (no wraparound), samplewise across a captured frame. -/
theorem mic_pcm_wraparound (frame : List ℚ) :
    toInt16JS 1 = -32768
    ∧ (∀ x : ℚ, -1 ≤ x → x < 1 → toInt16JS x = jsTrunc (x * 32768))
    ∧ micFrameToInt16 frame = frame.map toInt16JS := by
  refine ⟨?_, ?_, rfl⟩
  · have h1 : jsTrunc ((1 : ℚ) * 32768) = 32768 := by
      rw [one_mul, jsTrunc, if_pos (by norm_num : (0 : ℚ) ≤ 32768)]
      rw [show (32768 : ℚ) = ((32768 : ℤ) : ℚ) by norm_num, Int.floor_intCast]
    simp only [toInt16JS, h1]
    decide
  · intro x hx0 hx1
    have hub : x * 32768 < 32768 := by nlinarith
    have hlb : (-32768 : ℚ) ≤ x * 32768 := by nlinarith
    have hlow : -32768 ≤ jsTrunc (x * 32768) := by
      rw [jsTrunc]
      split
      · exact le_trans (by norm_num) (Int.floor_nonneg.mpr (by assumption))
      · have hc : (-32769 : ℤ) < ⌈x * 32768⌉ := Int.lt_ceil.mpr (by push_cast; linarith)
        omega
    have hhigh : jsTrunc (x * 32768) ≤ 32767 := by
      rw [jsTrunc]
      split
      · have hf : ⌊x * 32768⌋ < 32768 := Int.floor_lt.mpr (by push_cast; linarith)
        omega
      · have hneg : x * 32768 ≤ 0 := le_of_lt (not_le.mp (by assumption))
        have hc : ⌈x * 32768⌉ ≤ 0 := Int.ceil_le.mpr (by exact_mod_cast hneg)
        omega
    simp only [toInt16JS]
    split <;> omega

/-- Witness for C10: the in-range sample `1/2` encodes by plain truncation,
while the boundary sample `1.0` wraps to `-32768`. -/
theorem mic_pcm_wraparound_witness :
    ((-1 : ℚ) ≤ 1 / 2 ∧ (1 / 2 : ℚ) < 1)
    ∧ toInt16JS (1 / 2) = jsTrunc ((1 / 2) * 32768)
    ∧ toInt16JS 1 = -32768 :=
  ⟨⟨by norm_num, by norm_num⟩,
    (mic_pcm_wraparound []).2.1 (1 / 2) (by norm_num) (by norm_num),
    (mic_pcm_wraparound []).1⟩

end Zenai
